import Mathlib

/-!
Verification development for the IzanamiAlgorithm retry/reflection runner
(src/src/IzanamiAlgorithm.js).

The class drives an asynchronous task under a bounded-retry policy with
exponential backoff, escalating to a one-shot "reflection" procedure once
accumulated failures reach a threshold.  We give a shallow embedding:

* JS numbers used for delays and the backoff factor are modelled as `ℚ`
  (exact arithmetic; the claims never depend on float rounding).
* A fallible asynchronous operation is a function into `Except JsError Unit`;
  `Except.error` is a thrown/rejected error, `Except.ok` a normal return.
* The event emitter and the winston logger are external fire-and-forget
  collaborators (spec §1, §5); emissions and sink records are modelled as an
  ordered trace of `Event`s.  Console output is diagnostic only and is not
  modelled.
* The `while` loop of `runTask` is embedded as fuel-indexed structural
  recursion; each iteration increments `attempts`, and the loop runs only
  while `attempts < maxAttempts`, so fuel `maxAttempts` is always sufficient
  from any state.
* The task is invoked once per iteration with the same forwarded arguments;
  its outcome may vary per invocation, so it is modelled as a function of the
  attempt number of the invocation.
-/

namespace Izanami

/-- An opaque JS error value: a message and a stack trace
(spec §3: errors are opaque failure values with a human-readable message). -/
structure JsError where
  message : String
  stack : String
deriving DecidableEq, Repr

/-- One observable side effect of a run, in chronological order:
the notifications `emit`ted by the runner and the records appended to the
error sink (`this.logger.error`), plus the backoff suspensions (`sleep`). -/
inductive Event
  /-- `emit('beforeAttempt', attempts)`, line 70 of the source. -/
  | beforeAttempt (attempt : Nat)
  /-- `emit('success', attempts)`, line 75. -/
  | success (attempt : Nat)
  /-- `emit('error', { attempt, error })`, line 85. -/
  | errorEvent (attempt : Nat) (err : JsError)
  /-- `logger.error({ attempt, message, stack })`, lines 79-83: one structured
  record forwarded to the error sink per failed attempt. -/
  | sinkRecord (attempt : Nat) (message : String) (stack : String)
  /-- `logger.error({ message: 'Reflection phase failed', ... })`,
  lines 117-121: the record of a secondary failure of the reflection
  strategy. -/
  | sinkReflectionFailure (message : String) (stack : String)
  /-- `await this.sleep(delay)`, line 92: backoff suspension for `ms`
  milliseconds. -/
  | sleep (ms : ℚ)
  /-- `emit('reflection', errors)`, line 115. -/
  | reflection (errs : List JsError)
  /-- `emit('reflectionExit')`, line 99. -/
  | reflectionExit
  /-- `emit('failure', errors)`, line 103. -/
  | failure (errs : List JsError)
deriving DecidableEq, Repr

/-- The mutable run state owned by the attempt loop: `this.attempts`,
`this.errors`, `this.errorLoop` (the `reflecting` flag of the spec). -/
structure RunState where
  attempts : Nat
  errors : List JsError
  errorLoop : Bool
deriving DecidableEq, Repr

/-- The immutable resolved configuration used by the running algorithm.
Per spec §3 `maxAttempts` and `errorThreshold` are positive integers, hence
`Nat` here; `backoffFactor` and `initialDelay` are JS numbers, hence `ℚ`.
`onReflection` is the (caller-supplied or default) reflection strategy, an
asynchronous operation on the accumulated error list that may itself fail. -/
structure Config where
  maxAttempts : Nat
  errorThreshold : Nat
  backoffFactor : ℚ
  initialDelay : ℚ
  onReflection : List JsError → Except JsError Unit

/-- The state installed by the constructor (lines 44-47) and restored by
`reset` (lines 146-150): `attempts = 0`, `errors = []`, `errorLoop = false`. -/
def initState : RunState :=
  { attempts := 0, errors := [], errorLoop := false }

/-- `enterReflectionPhase` (lines 110-124): first sets `errorLoop = true`,
then invokes the reflection strategy on the accumulated errors inside a
`try`/`catch`; on normal completion it emits a `reflection` notification, on
failure it only appends a record of the secondary failure to the error sink.
Both branches return normally, so the result is always `Except.ok`, but the
`Except` codomain records that a thrown error would have propagated. -/
def enterReflectionPhase (cfg : Config) (s : RunState) :
    Except JsError (RunState × List Event) :=
  let s' : RunState := { s with errorLoop := true }
  match cfg.onReflection s'.errors with
  | Except.ok _ => Except.ok (s', [Event.reflection s'.errors])
  | Except.error reflectionError =>
      Except.ok (s', [Event.sinkReflectionFailure reflectionError.message
        reflectionError.stack])

/-- The events `enterReflectionPhase` produces for a given error list. -/
def reflEvents (cfg : Config) (errs : List JsError) : List Event :=
  match cfg.onReflection errs with
  | Except.ok _ => [Event.reflection errs]
  | Except.error e => [Event.sinkReflectionFailure e.message e.stack]

/-- The default reflection strategy (lines 129-141): deduplicates the error
messages (`[...new Set(errorMessages)]`, first-seen order) and prints them
for operator review.  It performs no corrective action and never fails. -/
def uniqueMessages (errors : List JsError) : List String :=
  (errors.map (fun err => err.message)).eraseDups

/-- `defaultReflection` only surfaces `uniqueMessages` on the console and
always completes normally. -/
def defaultReflection : List JsError → Except JsError Unit :=
  fun _ => Except.ok ()

/-- Result of the attempt loop (and of `runTask`):
final state, the event trace, how many times the task was invoked, whether
the loop was left through the early `return` of the success path, and the
sequence of run states after each mutation (for stating invariants). -/
structure LoopOut where
  state : RunState
  trace : List Event
  invocations : Nat
  earlyReturn : Bool
  states : List RunState
deriving DecidableEq, Repr

/-- The `while` loop of `runTask` (lines 66-95), fuel-indexed.  One iteration:
increment `attempts`; emit `beforeAttempt`; invoke the task (the invocation is
counted in `invocations`).  On success emit `success` and return early.  On
failure append the error to `errors`, append a sink record, emit `error`;
then if `errors.length >= errorThreshold` call `enterReflectionPhase`
(whose thrown errors would propagate), else sleep
`initialDelay * backoffFactor ^ (attempts - 1)` and continue.
The loop guard is `attempts < maxAttempts && !errorLoop`; since `attempts`
grows by one per iteration, any `fuel ≥ maxAttempts - attempts` is enough. -/
def runLoop (cfg : Config) (task : Nat → Except JsError Unit) :
    Nat → RunState → Except JsError LoopOut
  | 0, s => Except.ok ⟨s, [], 0, false, []⟩
  | fuel + 1, s =>
    if s.attempts < cfg.maxAttempts ∧ s.errorLoop = false then
      let s1 : RunState := { s with attempts := s.attempts + 1 }
      match task s1.attempts with
      | Except.ok _ =>
          Except.ok ⟨s1, [Event.beforeAttempt s1.attempts,
            Event.success s1.attempts], 1, true, [s1]⟩
      | Except.error e =>
          let s2 : RunState := { s1 with errors := s1.errors ++ [e] }
          let pre : List Event := [Event.beforeAttempt s1.attempts,
            Event.sinkRecord s1.attempts e.message e.stack,
            Event.errorEvent s1.attempts e]
          if cfg.errorThreshold ≤ s2.errors.length then
            match enterReflectionPhase cfg s2 with
            | Except.error e2 => Except.error e2
            | Except.ok (s3, evts) =>
                match runLoop cfg task fuel s3 with
                | Except.error e2 => Except.error e2
                | Except.ok rest =>
                    Except.ok ⟨rest.state, pre ++ evts ++ rest.trace,
                      1 + rest.invocations, rest.earlyReturn,
                      s1 :: s2 :: s3 :: rest.states⟩
          else
            let delay := cfg.initialDelay * cfg.backoffFactor ^ (s1.attempts - 1)
            match runLoop cfg task fuel s2 with
            | Except.error e2 => Except.error e2
            | Except.ok rest =>
                Except.ok ⟨rest.state, pre ++ Event.sleep delay :: rest.trace,
                  1 + rest.invocations, rest.earlyReturn,
                  s1 :: s2 :: rest.states⟩
    else
      Except.ok ⟨s, [], 0, false, []⟩

/-- `runTask` (lines 66-105): run the attempt loop; if it returned early
(success) nothing more happens.  Otherwise, if `errorLoop` is set, emit
`reflectionExit` and `reset` the state (lines 97-101, 146-150); else emit a
`failure` notification carrying the accumulated errors, leaving the state
populated (lines 102-104). -/
def runTask (cfg : Config) (task : Nat → Except JsError Unit) (s : RunState) :
    Except JsError LoopOut :=
  match runLoop cfg task cfg.maxAttempts s with
  | Except.error e => Except.error e
  | Except.ok out =>
    if out.earlyReturn then
      Except.ok out
    else if out.state.errorLoop then
      Except.ok ⟨initState, out.trace ++ [Event.reflectionExit],
        out.invocations, false, out.states ++ [initState]⟩
    else
      Except.ok ⟨out.state, out.trace ++ [Event.failure out.state.errors],
        out.invocations, false, out.states⟩

end Izanami

namespace Izanami

/-! ### Constructor-time option resolution (lines 29-47) -/

/-- A JS value as far as the constructor's checks can distinguish it:
`typeof options.task === 'function'` only cares whether the value is a
function.  An absent property is modelled by `Option.none` at the field. -/
inductive JsValue
  | jsFunction
  | jsNumber (q : ℚ)
  | jsString (s : String)
  | jsBoolean (b : Bool)
  | jsNull
deriving DecidableEq, Repr

/-- The caller-supplied options bag, before defaulting.  Numeric options are
either absent (`none`) or a JS number. -/
structure ConstructorOptions where
  task : Option JsValue
  maxAttempts : Option ℚ
  errorThreshold : Option ℚ
  backoffFactor : Option ℚ
  initialDelay : Option ℚ
deriving DecidableEq, Repr

/-- JS `x || d` for an absent-or-numeric `x`: the default is taken when the
property is absent or its value is falsy — for a number, when it is `0`. -/
def numOrDefault (v : Option ℚ) (d : ℚ) : ℚ :=
  match v with
  | none => d
  | some q => if q = 0 then d else q

/-- `typeof options.task === 'function'`. -/
def validTask : Option JsValue → Bool
  | some JsValue.jsFunction => true
  | _ => false

/-- Lines 29-33: the constructor throws (`ConfigurationError`) exactly when
the options bag is absent or `options.task` is not a function; otherwise the
instance is produced. -/
def constructorThrows : Option ConstructorOptions → Bool
  | none => true
  | some o => !(validTask o.task)

/-- Line 40: `this.initialDelay = options.initialDelay || 1000`. -/
def resolvedInitialDelay (o : ConstructorOptions) : ℚ :=
  numOrDefault o.initialDelay 1000

/-- Line 37: `this.maxAttempts = options.maxAttempts || 5`. -/
def resolvedMaxAttempts (o : ConstructorOptions) : ℚ :=
  numOrDefault o.maxAttempts 5

/-- Line 38: `this.errorThreshold = options.errorThreshold || 3`. -/
def resolvedErrorThreshold (o : ConstructorOptions) : ℚ :=
  numOrDefault o.errorThreshold 3

/-- Line 39: `this.backoffFactor = options.backoffFactor || 2`. -/
def resolvedBackoffFactor (o : ConstructorOptions) : ℚ :=
  numOrDefault o.backoffFactor 2

/-! ### Trace observations -/

/-- Is this event a backoff suspension? -/
def Event.isSleep : Event → Bool
  | Event.sleep _ => true
  | _ => false

/-- Is this event a `reflection` notification? -/
def Event.isReflectionNotif : Event → Bool
  | Event.reflection _ => true
  | _ => false

/-- Backoff shape of a trace: a `sleep` may appear only immediately after the
`error` notification of some failed attempt `k` and must suspend for exactly
`initialDelay * backoffFactor ^ (k - 1)` milliseconds; the event following a
failed attempt's `error` notification is either that `sleep` or the entry
into reflection (`reflection` notification or the sink record of a failed
strategy). -/
def backoffOk (cfg : Config) : List Event → Bool
  | [] => true
  | [Event.errorEvent _ _] => false
  | Event.errorEvent k _ :: Event.sleep d :: rest =>
      decide (d = cfg.initialDelay * cfg.backoffFactor ^ (k - 1)) && backoffOk cfg rest
  | Event.errorEvent _ _ :: Event.reflection _ :: rest => backoffOk cfg rest
  | Event.errorEvent _ _ :: Event.sinkReflectionFailure _ _ :: rest =>
      backoffOk cfg rest
  | Event.errorEvent _ _ :: _ :: _ => false
  | Event.sleep _ :: _ => false
  | _ :: rest => backoffOk cfg rest

/-- No backoff suspension anywhere in the trace. -/
def sleepFree (tr : List Event) : Bool :=
  tr.all (fun ev => !(ev.isSleep))

/-- After the reflection phase has run (observable as a `reflection`
notification or as the sink record of a failed strategy), no backoff
suspension occurs. -/
def noSleepAfterReflect : List Event → Bool
  | [] => true
  | Event.reflection _ :: rest => sleepFree rest
  | Event.sinkReflectionFailure _ _ :: rest => sleepFree rest
  | _ :: rest => noSleepAfterReflect rest

/-- The `RunState` invariant of spec §3: the attempt counter never exceeds
`maxAttempts`, and at most one error is recorded per attempt. -/
def StateInv (cfg : Config) (s : RunState) : Prop :=
  s.attempts ≤ cfg.maxAttempts ∧ s.errors.length ≤ s.attempts

instance (cfg : Config) (s : RunState) : Decidable (StateInv cfg s) :=
  inferInstanceAs (Decidable (_ ∧ _))

/-! ### Unfolding lemmas for the attempt loop -/

/-- A loop entered with `errorLoop` already set exits at once. -/
theorem runLoop_stopped (cfg : Config) (task : Nat → Except JsError Unit)
    (fuel : Nat) (s : RunState) (h : s.errorLoop = true) :
    runLoop cfg task fuel s = Except.ok ⟨s, [], 0, false, []⟩ := by
  cases fuel with
  | zero => rfl
  | succ f =>
      have hc : ¬(s.attempts < cfg.maxAttempts ∧ s.errorLoop = false) := by
        simp [h]
      simp only [runLoop, if_neg hc]

/-- `enterReflectionPhase` always returns normally: it sets the flag and
produces the events determined by the strategy's outcome. -/
theorem enterReflectionPhase_eq (cfg : Config) (s : RunState) :
    enterReflectionPhase cfg s =
      Except.ok ({ s with errorLoop := true }, reflEvents cfg s.errors) := by
  unfold enterReflectionPhase reflEvents
  cases hr : cfg.onReflection s.errors <;> simp only [hr]

/-- Loop-guard failure: the body does not run. -/
theorem runLoop_succ_stop (cfg : Config) (task : Nat → Except JsError Unit)
    (fuel : Nat) (s : RunState)
    (hc : ¬(s.attempts < cfg.maxAttempts ∧ s.errorLoop = false)) :
    runLoop cfg task (fuel + 1) s = Except.ok ⟨s, [], 0, false, []⟩ := by
  simp only [runLoop, if_neg hc]

/-- Successful attempt: emit `beforeAttempt` and `success`, return early. -/
theorem runLoop_succ_success (cfg : Config) (task : Nat → Except JsError Unit)
    (fuel : Nat) (s : RunState)
    (hc : s.attempts < cfg.maxAttempts ∧ s.errorLoop = false)
    (u : Unit) (ht : task (s.attempts + 1) = Except.ok u) :
    runLoop cfg task (fuel + 1) s = Except.ok
      ⟨{ s with attempts := s.attempts + 1 },
       [Event.beforeAttempt (s.attempts + 1), Event.success (s.attempts + 1)],
       1, true, [{ s with attempts := s.attempts + 1 }]⟩ := by
  simp only [runLoop, if_pos hc, ht]

/-- Failed attempt reaching the threshold: record the error, enter
reflection, and exit the loop on the next guard check. -/
theorem runLoop_succ_reflect (cfg : Config) (task : Nat → Except JsError Unit)
    (fuel : Nat) (s : RunState) (e : JsError)
    (hc : s.attempts < cfg.maxAttempts ∧ s.errorLoop = false)
    (ht : task (s.attempts + 1) = Except.error e)
    (hth : cfg.errorThreshold ≤ (s.errors ++ [e]).length) :
    runLoop cfg task (fuel + 1) s = Except.ok
      ⟨⟨s.attempts + 1, s.errors ++ [e], true⟩,
       [Event.beforeAttempt (s.attempts + 1),
        Event.sinkRecord (s.attempts + 1) e.message e.stack,
        Event.errorEvent (s.attempts + 1) e] ++ reflEvents cfg (s.errors ++ [e]),
       1, false,
       [⟨s.attempts + 1, s.errors, s.errorLoop⟩,
        ⟨s.attempts + 1, s.errors ++ [e], s.errorLoop⟩,
        ⟨s.attempts + 1, s.errors ++ [e], true⟩]⟩ := by
  have hstop := runLoop_stopped cfg task fuel
    ⟨s.attempts + 1, s.errors ++ [e], true⟩ rfl
  simp only [runLoop, if_pos hc, ht, if_pos hth, enterReflectionPhase_eq, hstop,
    List.append_nil]

/-- Failed attempt below the threshold: record the error, sleep for the
backoff delay, and continue with the next iteration. -/
theorem runLoop_succ_sleep (cfg : Config) (task : Nat → Except JsError Unit)
    (fuel : Nat) (s : RunState) (e : JsError) (rest : LoopOut)
    (hc : s.attempts < cfg.maxAttempts ∧ s.errorLoop = false)
    (ht : task (s.attempts + 1) = Except.error e)
    (hth : ¬(cfg.errorThreshold ≤ (s.errors ++ [e]).length))
    (hrest : runLoop cfg task fuel ⟨s.attempts + 1, s.errors ++ [e], s.errorLoop⟩ =
      Except.ok rest) :
    runLoop cfg task (fuel + 1) s = Except.ok
      ⟨rest.state,
       Event.beforeAttempt (s.attempts + 1) ::
       Event.sinkRecord (s.attempts + 1) e.message e.stack ::
       Event.errorEvent (s.attempts + 1) e ::
       Event.sleep (cfg.initialDelay * cfg.backoffFactor ^ s.attempts) ::
       rest.trace,
       1 + rest.invocations, rest.earlyReturn,
       ⟨s.attempts + 1, s.errors, s.errorLoop⟩ ::
       ⟨s.attempts + 1, s.errors ++ [e], s.errorLoop⟩ :: rest.states⟩ := by
  simp only [runLoop, if_pos hc, ht, if_neg hth, hrest, Nat.add_sub_cancel,
    List.cons_append, List.nil_append]

/-- The attempt loop never throws: every error source inside the body is
wrapped (the task by the `try`/`catch` of `runTask`, the strategy by
`enterReflectionPhase`). -/
theorem runLoop_isOk (cfg : Config) (task : Nat → Except JsError Unit) :
    ∀ (fuel : Nat) (s : RunState),
      ∃ out, runLoop cfg task fuel s = Except.ok out := by
  intro fuel
  induction fuel with
  | zero => exact fun s => ⟨_, rfl⟩
  | succ f ih =>
      intro s
      by_cases hc : s.attempts < cfg.maxAttempts ∧ s.errorLoop = false
      · cases ht : task (s.attempts + 1) with
        | ok u => exact ⟨_, runLoop_succ_success cfg task f s hc u ht⟩
        | error e =>
            by_cases hth : cfg.errorThreshold ≤ (s.errors ++ [e]).length
            · exact ⟨_, runLoop_succ_reflect cfg task f s e hc ht hth⟩
            · obtain ⟨rest, hrest⟩ := ih ⟨s.attempts + 1, s.errors ++ [e], s.errorLoop⟩
              exact ⟨_, runLoop_succ_sleep cfg task f s e rest hc ht hth hrest⟩
      · exact ⟨_, runLoop_succ_stop cfg task f s hc⟩

/-- Unfolding of `runTask` once the loop's result is known. -/
theorem runTask_eq (cfg : Config) (task : Nat → Except JsError Unit)
    (s : RunState) (out : LoopOut)
    (hout : runLoop cfg task cfg.maxAttempts s = Except.ok out) :
    runTask cfg task s =
      (if out.earlyReturn = true then Except.ok out
       else if out.state.errorLoop = true then
         Except.ok ⟨initState, out.trace ++ [Event.reflectionExit],
           out.invocations, false, out.states ++ [initState]⟩
       else
         Except.ok ⟨out.state, out.trace ++ [Event.failure out.state.errors],
           out.invocations, false, out.states⟩) := by
  unfold runTask
  rw [hout]

/-- `runTask` never throws either. -/
theorem runTask_isOk (cfg : Config) (task : Nat → Except JsError Unit)
    (s : RunState) : ∃ out, runTask cfg task s = Except.ok out := by
  obtain ⟨out, hout⟩ := runLoop_isOk cfg task cfg.maxAttempts s
  rw [runTask_eq cfg task s out hout]
  by_cases h1 : out.earlyReturn = true
  · rw [if_pos h1]; exact ⟨_, rfl⟩
  · rw [if_neg h1]
    by_cases h2 : out.state.errorLoop = true
    · rw [if_pos h2]; exact ⟨_, rfl⟩
    · rw [if_neg h2]; exact ⟨_, rfl⟩

/-- An always-failing run whose threshold is still reachable within the
remaining attempts: the loop performs exactly `errorThreshold - |errors|`
further invocations, enters reflection on the last of them, and exits with
`errorLoop` set; the trace ends with the reflection phase's events and
contains no `reflection` notification before them. -/
theorem runLoop_alwaysFail_reflect (cfg : Config)
    (task : Nat → Except JsError Unit)
    (htask : ∀ n, ∃ e, task n = Except.error e) :
    ∀ (fuel : Nat) (s : RunState), s.errorLoop = false →
      s.errors.length < cfg.errorThreshold →
      cfg.errorThreshold - s.errors.length ≤ cfg.maxAttempts - s.attempts →
      cfg.maxAttempts - s.attempts ≤ fuel →
      ∃ out, runLoop cfg task fuel s = Except.ok out ∧
        out.earlyReturn = false ∧
        out.state.errorLoop = true ∧
        out.invocations = cfg.errorThreshold - s.errors.length ∧
        out.state.errors.length = cfg.errorThreshold ∧
        out.state.attempts = s.attempts + (cfg.errorThreshold - s.errors.length) ∧
        ∃ t1, out.trace = t1 ++ reflEvents cfg out.state.errors ∧
          t1.all (fun ev => !(ev.isReflectionNotif)) = true := by
  intro fuel
  induction fuel with
  | zero => intro s _ _ _ _; omega
  | succ f ih =>
      intro s hflag hlen hreach hfuel
      have hlt : s.attempts < cfg.maxAttempts := by omega
      have hc : s.attempts < cfg.maxAttempts ∧ s.errorLoop = false := ⟨hlt, hflag⟩
      obtain ⟨e, ht⟩ := htask (s.attempts + 1)
      have hlen1 : (s.errors ++ [e]).length = s.errors.length + 1 := by simp
      by_cases hth : cfg.errorThreshold ≤ (s.errors ++ [e]).length
      · refine ⟨_, runLoop_succ_reflect cfg task f s e hc ht hth,
          rfl, rfl, ?_, ?_, ?_, ?_⟩
        · show 1 = cfg.errorThreshold - s.errors.length
          omega
        · show (s.errors ++ [e]).length = cfg.errorThreshold
          omega
        · show s.attempts + 1 = s.attempts + (cfg.errorThreshold - s.errors.length)
          omega
        · exact ⟨[Event.beforeAttempt (s.attempts + 1),
            Event.sinkRecord (s.attempts + 1) e.message e.stack,
            Event.errorEvent (s.attempts + 1) e], rfl,
            by simp [Event.isReflectionNotif]⟩
      · have harg1 : (s.errors ++ [e]).length < cfg.errorThreshold := by
          simp only [hlen1]; omega
        have harg2 : cfg.errorThreshold - (s.errors ++ [e]).length ≤
            cfg.maxAttempts - (s.attempts + 1) := by
          simp only [hlen1]; omega
        have harg3 : cfg.maxAttempts - (s.attempts + 1) ≤ f := by omega
        obtain ⟨out, hout, hER, hflag', hinv, hlen2, hatt, t1, htr, hall⟩ :=
          ih ⟨s.attempts + 1, s.errors ++ [e], s.errorLoop⟩ hflag harg1 harg2 harg3
        have hinv' : out.invocations =
            cfg.errorThreshold - (s.errors ++ [e]).length := hinv
        have hatt' : out.state.attempts =
            (s.attempts + 1) + (cfg.errorThreshold - (s.errors ++ [e]).length) := hatt
        simp only [hlen1] at hinv' hatt'
        refine ⟨_, runLoop_succ_sleep cfg task f s e out hc ht hth hout,
          hER, hflag', ?_, hlen2, ?_, ?_⟩
        · show 1 + out.invocations = cfg.errorThreshold - s.errors.length
          omega
        · show out.state.attempts = s.attempts + (cfg.errorThreshold - s.errors.length)
          omega
        · refine ⟨Event.beforeAttempt (s.attempts + 1) ::
            Event.sinkRecord (s.attempts + 1) e.message e.stack ::
            Event.errorEvent (s.attempts + 1) e ::
            Event.sleep (cfg.initialDelay * cfg.backoffFactor ^ s.attempts) ::
            t1, ?_, ?_⟩
          · simp [htr]
          · simp only [List.all_cons, Event.isReflectionNotif, Bool.not_false,
              Bool.true_and]
            exact hall

/-- An always-failing run whose threshold cannot be reached before the
attempts run out: the loop performs exactly the remaining
`maxAttempts - attempts` invocations, never sets `errorLoop` (not even
transiently), accumulates one error per attempt, and — when it ran at all —
its trace ends with the `error` notification of attempt `maxAttempts`
immediately followed by that attempt's full backoff suspension. -/
theorem runLoop_alwaysFail_exhaust (cfg : Config)
    (task : Nat → Except JsError Unit)
    (htask : ∀ n, ∃ e, task n = Except.error e) :
    ∀ (fuel : Nat) (s : RunState), s.errorLoop = false →
      s.attempts ≤ cfg.maxAttempts →
      s.errors.length + (cfg.maxAttempts - s.attempts) < cfg.errorThreshold →
      cfg.maxAttempts - s.attempts ≤ fuel →
      ∃ out, runLoop cfg task fuel s = Except.ok out ∧
        out.earlyReturn = false ∧
        out.state.errorLoop = false ∧
        out.invocations = cfg.maxAttempts - s.attempts ∧
        out.state.attempts = cfg.maxAttempts ∧
        out.state.errors.length = s.errors.length + (cfg.maxAttempts - s.attempts) ∧
        (∀ st ∈ out.states, st.errorLoop = false) ∧
        (s.attempts = cfg.maxAttempts → out.trace = []) ∧
        (s.attempts < cfg.maxAttempts →
          ∃ t1 e, out.trace = t1 ++ [Event.errorEvent cfg.maxAttempts e,
            Event.sleep (cfg.initialDelay *
              cfg.backoffFactor ^ (cfg.maxAttempts - 1))]) := by
  intro fuel
  induction fuel with
  | zero =>
      intro s hflag hle _ hfuel
      have heq : s.attempts = cfg.maxAttempts := by omega
      refine ⟨⟨s, [], 0, false, []⟩, rfl, rfl, hflag,
        show (0 : Nat) = cfg.maxAttempts - s.attempts by omega, heq,
        show s.errors.length = s.errors.length + (cfg.maxAttempts - s.attempts)
          by omega,
        by simp, fun _ => rfl, fun h => absurd h (by omega)⟩
  | succ f ih =>
      intro s hflag hle hsum hfuel
      by_cases heq : s.attempts = cfg.maxAttempts
      · have hc : ¬(s.attempts < cfg.maxAttempts ∧ s.errorLoop = false) := by
          simp [heq]
        refine ⟨_, runLoop_succ_stop cfg task f s hc,
          rfl, hflag, show (0 : Nat) = cfg.maxAttempts - s.attempts by omega, heq,
          show s.errors.length = s.errors.length + (cfg.maxAttempts - s.attempts)
            by omega,
          by simp, fun _ => rfl, fun h => absurd h (by omega)⟩
      · have hlt : s.attempts < cfg.maxAttempts := by omega
        have hc : s.attempts < cfg.maxAttempts ∧ s.errorLoop = false := ⟨hlt, hflag⟩
        obtain ⟨e, ht⟩ := htask (s.attempts + 1)
        have hlen1 : (s.errors ++ [e]).length = s.errors.length + 1 := by simp
        have hth : ¬(cfg.errorThreshold ≤ (s.errors ++ [e]).length) := by
          simp only [hlen1]; omega
        have harg1 : s.attempts + 1 ≤ cfg.maxAttempts := by omega
        have harg2 : (s.errors ++ [e]).length +
            (cfg.maxAttempts - (s.attempts + 1)) < cfg.errorThreshold := by
          simp only [hlen1]; omega
        have harg3 : cfg.maxAttempts - (s.attempts + 1) ≤ f := by omega
        obtain ⟨out, hout, hER, hflag', hinv, hatt, hlen2, hstates, hempty, htail⟩ :=
          ih ⟨s.attempts + 1, s.errors ++ [e], s.errorLoop⟩ hflag harg1 harg2 harg3
        have hinv' : out.invocations =
            cfg.maxAttempts - (s.attempts + 1) := hinv
        have hlen2' : out.state.errors.length =
            (s.errors ++ [e]).length + (cfg.maxAttempts - (s.attempts + 1)) := hlen2
        simp only [hlen1] at hlen2'
        refine ⟨_, runLoop_succ_sleep cfg task f s e out hc ht hth hout,
          hER, hflag', ?_, hatt, ?_, ?_, ?_, ?_⟩
        · show 1 + out.invocations = cfg.maxAttempts - s.attempts
          omega
        · show out.state.errors.length =
            s.errors.length + (cfg.maxAttempts - s.attempts)
          omega
        · intro st hst
          simp only [List.mem_cons] at hst
          rcases hst with h | h | h
          · rw [h]; exact hflag
          · rw [h]; exact hflag
          · exact hstates st h
        · intro h
          exact absurd h (by omega)
        · intro _
          by_cases hlast : s.attempts + 1 = cfg.maxAttempts
          · have htr0 : out.trace = [] := hempty hlast
            have hexp : s.attempts = cfg.maxAttempts - 1 := by omega
            refine ⟨[Event.beforeAttempt (s.attempts + 1),
              Event.sinkRecord (s.attempts + 1) e.message e.stack], e, ?_⟩
            simp [htr0, hlast, hexp]
            omega
          · obtain ⟨t1, e', htr⟩ :=
              htail (show s.attempts + 1 < cfg.maxAttempts by omega)
            refine ⟨Event.beforeAttempt (s.attempts + 1) ::
              Event.sinkRecord (s.attempts + 1) e.message e.stack ::
              Event.errorEvent (s.attempts + 1) e ::
              Event.sleep (cfg.initialDelay * cfg.backoffFactor ^ s.attempts) ::
              t1, e', ?_⟩
            simp [htr]

/-- The backoff shape holds of any loop trace, whatever the task and the
strategy do, and is stable under appending a well-shaped continuation. -/
theorem runLoop_backoffOk (cfg : Config) (task : Nat → Except JsError Unit) :
    ∀ (fuel : Nat) (s : RunState) (tail : List Event),
      backoffOk cfg tail = true →
      ∀ out, runLoop cfg task fuel s = Except.ok out →
        backoffOk cfg (out.trace ++ tail) = true := by
  intro fuel
  induction fuel with
  | zero =>
      intro s tail htail out hout
      injection hout with h
      subst h
      simpa using htail
  | succ f ih =>
      intro s tail htail out hout
      by_cases hc : s.attempts < cfg.maxAttempts ∧ s.errorLoop = false
      · cases ht : task (s.attempts + 1) with
        | ok u =>
            rw [runLoop_succ_success cfg task f s hc u ht] at hout
            injection hout with h
            subst h
            simpa [backoffOk] using htail
        | error e =>
            by_cases hth : cfg.errorThreshold ≤ (s.errors ++ [e]).length
            · rw [runLoop_succ_reflect cfg task f s e hc ht hth] at hout
              injection hout with h
              subst h
              cases hr : cfg.onReflection (s.errors ++ [e]) <;>
                simp [backoffOk, reflEvents, hr, htail]
            · obtain ⟨rest, hrest⟩ := runLoop_isOk cfg task f
                ⟨s.attempts + 1, s.errors ++ [e], s.errorLoop⟩
              rw [runLoop_succ_sleep cfg task f s e rest hc ht hth hrest] at hout
              injection hout with h
              subst h
              have hrec := ih ⟨s.attempts + 1, s.errors ++ [e], s.errorLoop⟩
                tail htail rest hrest
              simp [backoffOk, hrec]
      · rw [runLoop_succ_stop cfg task f s hc] at hout
        injection hout with h
        subst h
        simpa using htail

/-- A trace without any `sleep` trivially satisfies `noSleepAfterReflect`. -/
theorem sleepFree_noSleepAfterReflect :
    ∀ tr : List Event, sleepFree tr = true → noSleepAfterReflect tr = true := by
  intro tr
  induction tr with
  | nil => intro _; rfl
  | cons a rest ih =>
      intro h
      rw [sleepFree, List.all_cons, Bool.and_eq_true] at h
      cases a <;>
        simp only [noSleepAfterReflect] <;>
        first
          | exact h.2
          | exact ih h.2

/-- Once the reflection phase has produced its event, the loop performs no
further backoff suspension (it exits on the next guard check). -/
theorem runLoop_noSleepAfterReflect (cfg : Config)
    (task : Nat → Except JsError Unit) :
    ∀ (fuel : Nat) (s : RunState) (tail : List Event), s.errorLoop = false →
      sleepFree tail = true →
      ∀ out, runLoop cfg task fuel s = Except.ok out →
        noSleepAfterReflect (out.trace ++ tail) = true := by
  intro fuel
  induction fuel with
  | zero =>
      intro s tail _ htail out hout
      injection hout with h
      subst h
      simpa using sleepFree_noSleepAfterReflect tail htail
  | succ f ih =>
      intro s tail hflag htail out hout
      by_cases hc : s.attempts < cfg.maxAttempts ∧ s.errorLoop = false
      · cases ht : task (s.attempts + 1) with
        | ok u =>
            rw [runLoop_succ_success cfg task f s hc u ht] at hout
            injection hout with h
            subst h
            simpa [noSleepAfterReflect] using
              sleepFree_noSleepAfterReflect tail htail
        | error e =>
            by_cases hth : cfg.errorThreshold ≤ (s.errors ++ [e]).length
            · rw [runLoop_succ_reflect cfg task f s e hc ht hth] at hout
              injection hout with h
              subst h
              cases hr : cfg.onReflection (s.errors ++ [e]) <;>
                simp [noSleepAfterReflect, reflEvents, hr, sleepFree] at htail ⊢ <;>
                exact htail
            · obtain ⟨rest, hrest⟩ := runLoop_isOk cfg task f
                ⟨s.attempts + 1, s.errors ++ [e], s.errorLoop⟩
              rw [runLoop_succ_sleep cfg task f s e rest hc ht hth hrest] at hout
              injection hout with h
              subst h
              have hrec := ih ⟨s.attempts + 1, s.errors ++ [e], s.errorLoop⟩
                tail hflag htail rest hrest
              simpa [noSleepAfterReflect] using hrec
      · rw [runLoop_succ_stop cfg task f s hc] at hout
        injection hout with h
        subst h
        simpa using sleepFree_noSleepAfterReflect tail htail

/-- The `RunState` invariant is preserved by the loop, at every intermediate
mutation and at the exit state. -/
theorem runLoop_inv (cfg : Config) (task : Nat → Except JsError Unit) :
    ∀ (fuel : Nat) (s : RunState) (out : LoopOut),
      runLoop cfg task fuel s = Except.ok out → StateInv cfg s →
      StateInv cfg out.state ∧ ∀ st ∈ out.states, StateInv cfg st := by
  intro fuel
  induction fuel with
  | zero =>
      intro s out hout hs
      injection hout with h
      subst h
      exact ⟨hs, by simp⟩
  | succ f ih =>
      intro s out hout hs
      by_cases hc : s.attempts < cfg.maxAttempts ∧ s.errorLoop = false
      · have hinv1 : StateInv cfg ⟨s.attempts + 1, s.errors, s.errorLoop⟩ := by
          simp only [StateInv] at hs ⊢
          omega
        cases ht : task (s.attempts + 1) with
        | ok u =>
            rw [runLoop_succ_success cfg task f s hc u ht] at hout
            injection hout with h
            subst h
            refine ⟨hinv1, ?_⟩
            intro st hst
            simp only [List.mem_singleton] at hst
            rw [hst]
            exact hinv1
        | error e =>
            have hinvE : StateInv cfg
                ⟨s.attempts + 1, s.errors ++ [e], s.errorLoop⟩ := by
              simp only [StateInv] at hs ⊢
              simp only [List.length_append, List.length_singleton]
              omega
            by_cases hth : cfg.errorThreshold ≤ (s.errors ++ [e]).length
            · rw [runLoop_succ_reflect cfg task f s e hc ht hth] at hout
              injection hout with h
              subst h
              have hinvR : StateInv cfg
                  ⟨s.attempts + 1, s.errors ++ [e], true⟩ := hinvE
              refine ⟨hinvR, ?_⟩
              intro st hst
              simp only [List.mem_cons, List.not_mem_nil, or_false] at hst
              rcases hst with h | h | h <;> rw [h]
              · exact hinv1
              · exact hinvE
              · exact hinvR
            · obtain ⟨rest, hrest⟩ := runLoop_isOk cfg task f
                ⟨s.attempts + 1, s.errors ++ [e], s.errorLoop⟩
              rw [runLoop_succ_sleep cfg task f s e rest hc ht hth hrest] at hout
              injection hout with h
              subst h
              obtain ⟨hstate, hstates⟩ := ih
                ⟨s.attempts + 1, s.errors ++ [e], s.errorLoop⟩ rest hrest hinvE
              refine ⟨hstate, ?_⟩
              intro st hst
              simp only [List.mem_cons] at hst
              rcases hst with h | h | h
              · rw [h]; exact hinv1
              · rw [h]; exact hinvE
              · exact hstates st h
      · rw [runLoop_succ_stop cfg task f s hc] at hout
        injection hout with h
        subst h
        exact ⟨hs, by simp⟩

/-! ### The claims -/

/-- Claim C1: for every configuration where the task fails on every
invocation and `errorThreshold ≤ maxAttempts` (positive per spec §3), a
fresh `runTask` run invokes the task exactly `errorThreshold` times; the
attempt loop completes with the `reflecting` flag (`errorLoop`) true —
the run therefore ends with the `reflectionExit` notification — and
`RunState` is reset (`attemptCount` back to 0, `errorLog` empty) once the
run completes. -/
theorem claim_reflect_run_invokes_threshold_and_resets
    (cfg : Config) (task : Nat → Except JsError Unit)
    (htask : ∀ n, ∃ e, task n = Except.error e)
    (hpos : 1 ≤ cfg.errorThreshold)
    (hle : cfg.errorThreshold ≤ cfg.maxAttempts) :
    ∃ lout out,
      runLoop cfg task cfg.maxAttempts initState = Except.ok lout ∧
      lout.state.errorLoop = true ∧
      runTask cfg task initState = Except.ok out ∧
      out.invocations = cfg.errorThreshold ∧
      out.trace.getLast? = some Event.reflectionExit ∧
      out.state = initState := by
  obtain ⟨lout, hlout, hER, hflag, hinv, _, _, _⟩ :=
    runLoop_alwaysFail_reflect cfg task htask cfg.maxAttempts initState rfl
      (show (0 : Nat) < cfg.errorThreshold from hpos)
      (show cfg.errorThreshold - 0 ≤ cfg.maxAttempts - 0 by omega)
      (show cfg.maxAttempts - 0 ≤ cfg.maxAttempts by omega)
  have hrun : runTask cfg task initState = Except.ok
      ⟨initState, lout.trace ++ [Event.reflectionExit], lout.invocations, false,
        lout.states ++ [initState]⟩ := by
    rw [runTask_eq cfg task initState lout hlout, if_neg (by simp [hER]),
      if_pos hflag]
  refine ⟨lout, _, hlout, hflag, hrun, ?_, ?_, rfl⟩
  · simpa using hinv
  · simp [List.getLast?_concat]

/-- Claim C3: for every configuration where the task fails on every
invocation and `errorThreshold > maxAttempts`, a fresh `runTask` run
invokes the task exactly `maxAttempts` times, the `reflecting` flag stays
false for the whole run (at every intermediate state and at the end), the
run ends with a `failure` notification carrying the accumulated error log
of exactly `maxAttempts` entries, and `RunState` is left populated, not
reset. -/
theorem claim_exhaust_run_invokes_maxAttempts
    (cfg : Config) (task : Nat → Except JsError Unit)
    (htask : ∀ n, ∃ e, task n = Except.error e)
    (hgt : cfg.maxAttempts < cfg.errorThreshold) :
    ∃ out, runTask cfg task initState = Except.ok out ∧
      out.invocations = cfg.maxAttempts ∧
      out.state.errorLoop = false ∧
      (∀ st ∈ out.states, st.errorLoop = false) ∧
      out.state.errors.length = cfg.maxAttempts ∧
      out.state.attempts = cfg.maxAttempts ∧
      out.trace.getLast? = some (Event.failure out.state.errors) := by
  obtain ⟨lout, hlout, hER, hflag, hinv, hatt, hlen, hstates, _, _⟩ :=
    runLoop_alwaysFail_exhaust cfg task htask cfg.maxAttempts initState rfl
      (show (0 : Nat) ≤ cfg.maxAttempts by omega)
      (show 0 + (cfg.maxAttempts - 0) < cfg.errorThreshold by omega)
      (show cfg.maxAttempts - 0 ≤ cfg.maxAttempts by omega)
  have hrun : runTask cfg task initState = Except.ok
      ⟨lout.state, lout.trace ++ [Event.failure lout.state.errors],
        lout.invocations, false, lout.states⟩ := by
    rw [runTask_eq cfg task initState lout hlout, if_neg (by simp [hER]),
      if_neg (by simp [hflag])]
  have hlen' : lout.state.errors.length = cfg.maxAttempts := by
    have h0 : lout.state.errors.length =
        initState.errors.length + (cfg.maxAttempts - initState.attempts) := hlen
    have h1 : initState.attempts = 0 := rfl
    have h2 : initState.errors.length = 0 := rfl
    omega
  refine ⟨_, hrun, ?_, hflag, hstates, hlen', hatt, ?_⟩
  · simpa using hinv
  · simp [List.getLast?_concat]

/-- Claim C4: for every configuration where the task succeeds on every
invocation (and `maxAttempts ≥ 1` per spec §3), a fresh `runTask` run
invokes the task exactly once and its whole observable trace is the
`beforeAttempt` notification followed by the `success` notification, both
carrying attempt number 1 — in particular the error sink is never touched —
and the run terminates early leaving `RunState` populated
(`attempts = 1`), not reset. -/
theorem claim_success_run_single_invocation
    (cfg : Config) (task : Nat → Except JsError Unit)
    (htask : ∀ n, task n = Except.ok ())
    (hpos : 1 ≤ cfg.maxAttempts) :
    runTask cfg task initState = Except.ok
      ⟨⟨1, [], false⟩, [Event.beforeAttempt 1, Event.success 1], 1, true,
        [⟨1, [], false⟩]⟩ := by
  have hma : cfg.maxAttempts = (cfg.maxAttempts - 1) + 1 := by omega
  have hloop := runLoop_succ_success cfg task (cfg.maxAttempts - 1) initState
    ⟨show (0 : Nat) < cfg.maxAttempts from hpos, rfl⟩ () (htask 1)
  rw [runTask_eq cfg task initState
    ⟨⟨1, [], false⟩, [Event.beforeAttempt 1, Event.success 1], 1, true,
      [⟨1, [], false⟩]⟩
    (by rw [hma]; exact hloop), if_pos rfl]

/-- Claim C5: in every run, a backoff suspension occurs only immediately
after the `error` notification of a failed attempt `k` that did not trigger
reflection, and suspends for exactly `initialDelay * backoffFactor ^ (k-1)`
milliseconds (so the delay awaited before attempt `k+1` is exactly that);
the event after a failed attempt is always either that suspension or the
reflection phase's own event; no suspension precedes attempt 1 (a trace can
never begin with a `sleep`), and no suspension occurs after the attempt
that triggered reflection. -/
theorem claim_backoff_delay_policy (cfg : Config)
    (task : Nat → Except JsError Unit) (s : RunState) :
    ∃ out, runTask cfg task s = Except.ok out ∧
      backoffOk cfg out.trace = true ∧
      noSleepAfterReflect out.trace = true := by
  obtain ⟨lout, hlout⟩ := runLoop_isOk cfg task cfg.maxAttempts s
  by_cases hER : lout.earlyReturn = true
  · refine ⟨lout, ?_, ?_, ?_⟩
    · rw [runTask_eq cfg task s lout hlout, if_pos hER]
    · simpa using runLoop_backoffOk cfg task cfg.maxAttempts s [] rfl lout hlout
    · cases hsf : s.errorLoop with
      | false =>
          simpa using runLoop_noSleepAfterReflect cfg task cfg.maxAttempts s []
            hsf rfl lout hlout
      | true =>
          rw [runLoop_stopped cfg task cfg.maxAttempts s hsf] at hlout
          injection hlout with h
          rw [← h] at hER
          simp at hER
  · by_cases hfl : lout.state.errorLoop = true
    · refine ⟨_, by rw [runTask_eq cfg task s lout hlout, if_neg hER,
        if_pos hfl], ?_, ?_⟩
      · exact runLoop_backoffOk cfg task cfg.maxAttempts s
          [Event.reflectionExit] rfl lout hlout
      · cases hsf : s.errorLoop with
        | false =>
            exact runLoop_noSleepAfterReflect cfg task cfg.maxAttempts s
              [Event.reflectionExit] hsf rfl lout hlout
        | true =>
            rw [runLoop_stopped cfg task cfg.maxAttempts s hsf] at hlout
            injection hlout with h
            rw [← h]
            rfl
    · refine ⟨_, by rw [runTask_eq cfg task s lout hlout, if_neg hER,
        if_neg hfl], ?_, ?_⟩
      · exact runLoop_backoffOk cfg task cfg.maxAttempts s
          [Event.failure lout.state.errors] rfl lout hlout
      · cases hsf : s.errorLoop with
        | false =>
            exact runLoop_noSleepAfterReflect cfg task cfg.maxAttempts s
              [Event.failure lout.state.errors] hsf rfl lout hlout
        | true =>
            rw [runLoop_stopped cfg task cfg.maxAttempts s hsf] at hlout
            injection hlout with h
            rw [← h] at hfl
            exact absurd hsf hfl

/-- Claim C6: for every reflection strategy that fails whenever invoked (in
a run that reaches the threshold), the `reflecting` flag is true in the
state returned by `enterReflectionPhase` — it is set before the strategy
runs, so this holds no matter what the strategy does — the strategy's
failure is not propagated (the run still completes normally), a record of
the secondary failure is forwarded to the error sink, no `reflection`
notification is ever published, and the `reflectionExit` notification and
the final `RunState` reset still occur. -/
theorem claim_failing_reflection_isolated
    (cfg : Config) (task : Nat → Except JsError Unit)
    (htask : ∀ n, ∃ e, task n = Except.error e)
    (hrefl : ∀ errs, ∃ e, cfg.onReflection errs = Except.error e)
    (hpos : 1 ≤ cfg.errorThreshold)
    (hle : cfg.errorThreshold ≤ cfg.maxAttempts) :
    (∀ s r, enterReflectionPhase cfg s = Except.ok r → r.1.errorLoop = true) ∧
    ∃ out, runTask cfg task initState = Except.ok out ∧
      (∃ e : JsError, Event.sinkReflectionFailure e.message e.stack ∈ out.trace) ∧
      (∀ errs, Event.reflection errs ∉ out.trace) ∧
      out.trace.getLast? = some Event.reflectionExit ∧
      out.state = initState := by
  constructor
  · intro s r h
    rw [enterReflectionPhase_eq] at h
    injection h with h2
    rw [← h2]
  · obtain ⟨lout, hlout, hER, hflag, _, _, _, t1, htr, hall⟩ :=
      runLoop_alwaysFail_reflect cfg task htask cfg.maxAttempts initState rfl
        (show (0 : Nat) < cfg.errorThreshold from hpos)
        (show cfg.errorThreshold - 0 ≤ cfg.maxAttempts - 0 by omega)
        (show cfg.maxAttempts - 0 ≤ cfg.maxAttempts by omega)
    obtain ⟨er, her⟩ := hrefl lout.state.errors
    have hre : reflEvents cfg lout.state.errors =
        [Event.sinkReflectionFailure er.message er.stack] := by
      rw [reflEvents, her]
    have hrun : runTask cfg task initState = Except.ok
        ⟨initState, lout.trace ++ [Event.reflectionExit], lout.invocations,
          false, lout.states ++ [initState]⟩ := by
      rw [runTask_eq cfg task initState lout hlout, if_neg (by simp [hER]),
        if_pos hflag]
    refine ⟨_, hrun, ⟨er, ?_⟩, ?_, ?_, rfl⟩
    · rw [htr, hre]
      simp
    · intro errs hmem
      rw [htr, hre] at hmem
      simp only [List.append_assoc, List.mem_append, List.mem_cons,
        List.mem_singleton, List.not_mem_nil] at hmem
      rcases hmem with h | h
      · have := List.all_eq_true.mp hall _ h
        simp [Event.isReflectionNotif] at this
      · simp at h
    · rw [htr, hre]
      simp [List.getLast?_concat]

/-- Claim C7: construction raises a `ConfigurationError` exactly when the
options bag is absent or its `task` is not an invocable function; with an
invocable `task` the constructor does not throw and the instance is
produced. -/
theorem claim_constructor_throws_iff (opts : Option ConstructorOptions) :
    constructorThrows opts = true ↔
      (opts = none ∨ ∃ o, opts = some o ∧ o.task ≠ some JsValue.jsFunction) := by
  cases opts with
  | none => simp [constructorThrows]
  | some o =>
      constructor
      · intro h
        refine Or.inr ⟨o, rfl, fun hc => ?_⟩
        have h' : (!(validTask o.task)) = true := h
        rw [hc] at h'
        simp [validTask] at h'
      · intro h
        rcases h with h | ⟨o', ho', hne⟩
        · exact Option.noConfusion h
        · injection ho' with h2
          subst h2
          show (!(validTask o.task)) = true
          cases hto : o.task with
          | none => rfl
          | some v =>
              cases v with
              | jsFunction => exact absurd hto hne
              | jsNumber q => rfl
              | jsString str => rfl
              | jsBoolean b => rfl
              | jsNull => rfl

/-- Claim C8: whatever the task and the reflection strategy do — each may
fail on any invocation — `runTask` always completes normally (`Except.ok`),
never propagating an error to its caller: a task failure is consumed by the
retry/escalation logic, and a strategy failure is swallowed inside
`enterReflectionPhase`, which also always returns normally. -/
theorem claim_no_error_propagation (cfg : Config)
    (task : Nat → Except JsError Unit) :
    (∀ s, ∃ out, runTask cfg task s = Except.ok out) ∧
    (∀ s, ∃ r, enterReflectionPhase cfg s = Except.ok r) :=
  ⟨fun s => runTask_isOk cfg task s,
   fun s => ⟨_, enterReflectionPhase_eq cfg s⟩⟩

/-- Claim C9: the `RunState` invariant `attemptCount ≤ maxAttempts` and
`errorLog.length ≤ attemptCount` holds of the initial state and, given any
entry state satisfying it, of every intermediate state reached during
`runTask` (one snapshot per mutation: the attempt counter is bumped only
under the loop guard, at most one error is appended per failed attempt)
as well as of the final state. -/
theorem claim_runState_invariant (cfg : Config)
    (task : Nat → Except JsError Unit) (s : RunState) (out : LoopOut)
    (hs : StateInv cfg s) (hrun : runTask cfg task s = Except.ok out) :
    StateInv cfg initState ∧ StateInv cfg out.state ∧
      ∀ st ∈ out.states, StateInv cfg st := by
  have hinit : StateInv cfg initState := by simp [StateInv, initState]
  obtain ⟨lout, hlout⟩ := runLoop_isOk cfg task cfg.maxAttempts s
  obtain ⟨hstate, hstates⟩ := runLoop_inv cfg task cfg.maxAttempts s lout hlout hs
  rw [runTask_eq cfg task s lout hlout] at hrun
  by_cases hER : lout.earlyReturn = true
  · rw [if_pos hER] at hrun
    injection hrun with h
    subst h
    exact ⟨hinit, hstate, hstates⟩
  · rw [if_neg hER] at hrun
    by_cases hfl : lout.state.errorLoop = true
    · rw [if_pos hfl] at hrun
      injection hrun with h
      subst h
      refine ⟨hinit, hinit, ?_⟩
      intro st hst
      rw [List.mem_append] at hst
      rcases hst with h | h
      · exact hstates st h
      · simp only [List.mem_singleton] at h
        rw [h]
        exact hinit
    · rw [if_neg hfl] at hrun
      injection hrun with h
      subst h
      exact ⟨hinit, hstate, hstates⟩

/-- Claim C10: when the final attempt of a run (`attemptCount` equal to
`maxAttempts`) fails without reaching the error threshold, the full backoff
delay `initialDelay * backoffFactor ^ (maxAttempts - 1)` for that attempt
is still awaited — the trace shows the suspension right after the last
attempt's `error` notification, before the `failure` notification — even
though no further attempt follows. -/
theorem claim_delay_after_final_attempt
    (cfg : Config) (task : Nat → Except JsError Unit)
    (htask : ∀ n, ∃ e, task n = Except.error e)
    (hgt : cfg.maxAttempts < cfg.errorThreshold)
    (hpos : 1 ≤ cfg.maxAttempts) :
    ∃ out t1 e, runTask cfg task initState = Except.ok out ∧
      out.trace = t1 ++ [Event.errorEvent cfg.maxAttempts e,
        Event.sleep (cfg.initialDelay * cfg.backoffFactor ^ (cfg.maxAttempts - 1)),
        Event.failure out.state.errors] := by
  obtain ⟨lout, hlout, hER, hflag, _, _, _, _, _, htail⟩ :=
    runLoop_alwaysFail_exhaust cfg task htask cfg.maxAttempts initState rfl
      (show (0 : Nat) ≤ cfg.maxAttempts by omega)
      (show 0 + (cfg.maxAttempts - 0) < cfg.errorThreshold by omega)
      (show cfg.maxAttempts - 0 ≤ cfg.maxAttempts by omega)
  obtain ⟨t1, e, htr⟩ := htail (show (0 : Nat) < cfg.maxAttempts from hpos)
  have hrun : runTask cfg task initState = Except.ok
      ⟨lout.state, lout.trace ++ [Event.failure lout.state.errors],
        lout.invocations, false, lout.states⟩ := by
    rw [runTask_eq cfg task initState lout hlout, if_neg (by simp [hER]),
      if_neg (by simp [hflag])]
  refine ⟨_, t1, e, hrun, ?_⟩
  rw [htr]
  simp

/-! ### Constructor claims about `initialDelay` (C2) -/

/-- Claim C2 counterexample: supplying `initialDelay = 0` does NOT resolve
to 0 — JS `options.initialDelay || 1000` treats 0 as falsy, so the resolved
delay is the default 1000. -/
theorem claim_initialDelay_zero_counterexample :
    resolvedInitialDelay ⟨some JsValue.jsFunction, none, none, none, some 0⟩ =
      1000 ∧
    ¬ resolvedInitialDelay ⟨some JsValue.jsFunction, none, none, none, some 0⟩ =
      0 := by
  constructor
  · rfl
  · intro h
    rw [show resolvedInitialDelay
        ⟨some JsValue.jsFunction, none, none, none, some 0⟩ = 1000 from rfl] at h
    norm_num at h

/-- Claim C2 (amended): configuration resolution yields the supplied
`initialDelay` for every nonzero value, but the default 1000 is used both
when the option is absent and when the supplied value is 0 (JS `||`
defaulting treats the number 0 as falsy). -/
theorem claim_initialDelay_resolution (o : ConstructorOptions) :
    (o.initialDelay = none → resolvedInitialDelay o = 1000) ∧
    (o.initialDelay = some 0 → resolvedInitialDelay o = 1000) ∧
    (∀ q, o.initialDelay = some q → q ≠ 0 → resolvedInitialDelay o = q) := by
  refine ⟨?_, ?_, ?_⟩
  · intro h
    simp [resolvedInitialDelay, numOrDefault, h]
  · intro h
    simp [resolvedInitialDelay, numOrDefault, h]
  · intro q h hq
    simp [resolvedInitialDelay, numOrDefault, h, hq]

/-! ### Witnesses: concrete runs exercising each hypothesis-bearing claim -/

/-- A task that always fails, for the failing-run witnesses. -/
def exFailTask : Nat → Except JsError Unit :=
  fun _ => Except.error ⟨"boom", "trace"⟩

/-- A task that always succeeds. -/
def exOkTask : Nat → Except JsError Unit :=
  fun _ => Except.ok ()

/-- Threshold 1 within 2 attempts: the reflection path runs. -/
def cfgReflect : Config := ⟨2, 1, 2, 5, defaultReflection⟩

/-- Threshold 2 above 1 attempt: the exhaustion path runs. -/
def cfgExhaust : Config := ⟨1, 2, 2, 5, defaultReflection⟩

/-- One attempt, threshold 1. -/
def cfgSuccess : Config := ⟨1, 1, 2, 5, defaultReflection⟩

/-- One attempt, threshold 1, and a strategy that always fails. -/
def cfgBadRefl : Config :=
  ⟨1, 1, 2, 5, fun _ => Except.error ⟨"refl-bad", "rt"⟩⟩

/-- Witness for C1 at `cfgReflect`/`exFailTask`. -/
theorem claim_reflect_run_witness :
    ∃ lout out,
      runLoop cfgReflect exFailTask cfgReflect.maxAttempts initState =
        Except.ok lout ∧
      lout.state.errorLoop = true ∧
      runTask cfgReflect exFailTask initState = Except.ok out ∧
      out.invocations = cfgReflect.errorThreshold ∧
      out.trace.getLast? = some Event.reflectionExit ∧
      out.state = initState :=
  claim_reflect_run_invokes_threshold_and_resets cfgReflect exFailTask
    (fun _ => ⟨⟨"boom", "trace"⟩, rfl⟩) (by decide) (by decide)

/-- Witness for C3 at `cfgExhaust`/`exFailTask`. -/
theorem claim_exhaust_run_witness :
    ∃ out, runTask cfgExhaust exFailTask initState = Except.ok out ∧
      out.invocations = cfgExhaust.maxAttempts ∧
      out.state.errorLoop = false ∧
      (∀ st ∈ out.states, st.errorLoop = false) ∧
      out.state.errors.length = cfgExhaust.maxAttempts ∧
      out.state.attempts = cfgExhaust.maxAttempts ∧
      out.trace.getLast? = some (Event.failure out.state.errors) :=
  claim_exhaust_run_invokes_maxAttempts cfgExhaust exFailTask
    (fun _ => ⟨⟨"boom", "trace"⟩, rfl⟩) (by decide)

/-- Witness for C4 at `cfgSuccess`/`exOkTask`. -/
theorem claim_success_run_witness :
    runTask cfgSuccess exOkTask initState = Except.ok
      ⟨⟨1, [], false⟩, [Event.beforeAttempt 1, Event.success 1], 1, true,
        [⟨1, [], false⟩]⟩ :=
  claim_success_run_single_invocation cfgSuccess exOkTask (fun _ => rfl)
    (by decide)

/-- Witness for C6 at `cfgBadRefl`/`exFailTask`. -/
theorem claim_failing_reflection_witness :
    (∀ s r, enterReflectionPhase cfgBadRefl s = Except.ok r →
      r.1.errorLoop = true) ∧
    ∃ out, runTask cfgBadRefl exFailTask initState = Except.ok out ∧
      (∃ e : JsError, Event.sinkReflectionFailure e.message e.stack ∈ out.trace) ∧
      (∀ errs, Event.reflection errs ∉ out.trace) ∧
      out.trace.getLast? = some Event.reflectionExit ∧
      out.state = initState :=
  claim_failing_reflection_isolated cfgBadRefl exFailTask
    (fun _ => ⟨⟨"boom", "trace"⟩, rfl⟩)
    (fun _ => ⟨⟨"refl-bad", "rt"⟩, rfl⟩) (by decide) (by decide)

/-- Witness for C9 on the concrete successful run of `cfgSuccess`. -/
theorem claim_runState_invariant_witness :
    StateInv cfgSuccess initState ∧
    StateInv cfgSuccess
      ((⟨⟨1, [], false⟩, [Event.beforeAttempt 1, Event.success 1], 1, true,
        [⟨1, [], false⟩]⟩ : LoopOut)).state ∧
    ∀ st ∈ ((⟨⟨1, [], false⟩, [Event.beforeAttempt 1, Event.success 1], 1, true,
        [⟨1, [], false⟩]⟩ : LoopOut)).states, StateInv cfgSuccess st :=
  claim_runState_invariant cfgSuccess exOkTask initState
    ⟨⟨1, [], false⟩, [Event.beforeAttempt 1, Event.success 1], 1, true,
      [⟨1, [], false⟩]⟩ (by decide) rfl

/-- Witness for C10 at `cfgExhaust`/`exFailTask`. -/
theorem claim_delay_after_final_attempt_witness :
    ∃ out t1 e, runTask cfgExhaust exFailTask initState = Except.ok out ∧
      out.trace = t1 ++ [Event.errorEvent cfgExhaust.maxAttempts e,
        Event.sleep (cfgExhaust.initialDelay *
          cfgExhaust.backoffFactor ^ (cfgExhaust.maxAttempts - 1)),
        Event.failure out.state.errors] :=
  claim_delay_after_final_attempt cfgExhaust exFailTask
    (fun _ => ⟨⟨"boom", "trace"⟩, rfl⟩) (by decide) (by decide)

/-- Witness for C2 (amended): a nonzero supplied delay resolves to itself. -/
theorem claim_initialDelay_resolution_witness :
    resolvedInitialDelay ⟨some JsValue.jsFunction, none, none, none, some 250⟩ =
      250 :=
  (claim_initialDelay_resolution
    ⟨some JsValue.jsFunction, none, none, none, some 250⟩).2.2 250 rfl
    (by norm_num)

end Izanami
